import Mathlib

/-!
Shallow embedding of the Termibbl server core (src/server/skribbl.rs,
src/server/mod.rs, src/data.rs) together with proofs about the spec's
claims.  Rust machine integers (`u32`, `u64`, `usize`) are modelled as
`Nat`: every arithmetic operation performed by the embedded code is a
comparison, a truncating subtraction (`max(0, a - b)` in the source) or a
small addition that cannot overflow at the game's magnitudes.  `HashMap`s
are modelled as association lists; stateful methods become functions that
return the updated value; the wall clock (`get_time_now`) and the RNG are
passed in as explicit parameters.
-/

/-- ROUND_DURATION from src/server/mod.rs (`pub const ROUND_DURATION: u64 = 120`). -/
def ROUND_DURATION : Nat := 120

/-- ROUNDS from src/server/mod.rs (`pub const ROUNDS: usize = 3`). -/
def ROUNDS : Nat := 3

/-! ## Word engine: levenshtein_distance (src/server/skribbl.rs lines 315-344) -/

/-- Rust `char::to_ascii_lowercase`: add 32 to an ASCII uppercase letter,
otherwise return the character unchanged. -/
def to_ascii_lowercase (c : Char) : Char :=
  if 'A' ≤ c ∧ c ≤ 'Z' then Char.ofNat (c.toNat + 32) else c

/-- Rust `char::eq_ignore_ascii_case`: compare the ASCII-lowercase forms. -/
def eq_ignore_ascii_case (a b : Char) : Bool :=
  to_ascii_lowercase a == to_ascii_lowercase b

/-- Inner loop of `levenshtein_distance`: fill one row of the matrix, left
to right.  `lev_row_aux c2 w1 prev left` walks the remaining characters of
`w1` while sliding a window over the previous row, where the head of
`prev` is the diagonal entry `matrix[j-1][i-1]`, the next element is the
upper entry `matrix[j-1][i]`, and `left` is the last entry written into
the current row (`matrix[j][i-1]`). -/
def lev_row_aux (c2 : Char) : List Char → List Nat → Nat → List Nat
  | [], _, _ => []
  | _ :: _, [], _ => []
  | _ :: _, [_], _ => []
  | c1 :: cs, diag :: up :: rest, left =>
    let x := if eq_ignore_ascii_case c1 c2 then diag
             else 1 + min (min left up) diag
    x :: lev_row_aux c2 cs (up :: rest) x

/-- One full row `matrix[j]` of the DP matrix: the source pushes `vec![j]`
and then extends it cell by cell. -/
def lev_row (w1 : List Char) (c2 : Char) (prev : List Nat) (j : Nat) : List Nat :=
  j :: lev_row_aux c2 w1 prev j

/-- Outer loop of `levenshtein_distance`: fold the rows for each character
of `w2`, keeping the current row index `j`. -/
def lev_rows (w1 : List Char) : List Char → List Nat → Nat → List Nat
  | [], prev, _ => prev
  | c2 :: cs, prev, j => lev_rows w1 cs (lev_row w1 c2 prev (j + 1)) (j + 1)

/-- `levenshtein_distance` from src/server/skribbl.rs: Wagner-Fischer DP
over the character vectors of the two strings, with `eq_ignore_ascii_case`
as the character comparison; the result is the bottom-right matrix entry
`matrix[b_len - 1][a_len - 1]`. -/
def levenshtein_distance (a b : String) : Nat :=
  (lev_rows a.data b.data (List.range (a.data.length + 1)) 0).getLastD 0

/-- Recursive presentation of the same recurrence the DP implements,
peeling the first characters; used to reason about the matrix. -/
def lev_spec : List Char → List Char → Nat
  | [], ys => ys.length
  | x :: xs, [] => (x :: xs).length
  | x :: xs, y :: ys =>
    if eq_ignore_ascii_case x y then lev_spec xs ys
    else 1 + min (min (lev_spec xs (y :: ys)) (lev_spec (x :: xs) ys)) (lev_spec xs ys)
  termination_by xs ys => xs.length + ys.length
  decreasing_by all_goals simp_arith

/-- Row `j` of the DP matrix as prefix distances: `pref_row q p ws` lists
`lev_spec (p ++ take k ws).reverse q.reverse` for `k = 0 .. |ws|`. -/
def pref_row (q : List Char) : List Char → List Char → List Nat
  | p, [] => [lev_spec p.reverse q.reverse]
  | p, c :: cs => lev_spec p.reverse q.reverse :: pref_row q (p ++ [c]) cs

theorem lev_spec_nil_right (xs : List Char) : lev_spec xs [] = xs.length := by
  cases xs <;> simp [lev_spec]

theorem pref_row_head (q p : List Char) (ws : List Char) :
    pref_row q p ws = lev_spec p.reverse q.reverse :: (pref_row q p ws).tail := by
  cases ws <;> rfl

theorem lev_spec_snoc (p q : List Char) (c1 c2 : Char) :
    lev_spec (p ++ [c1]).reverse (q ++ [c2]).reverse =
      if eq_ignore_ascii_case c1 c2 then lev_spec p.reverse q.reverse
      else 1 + min (min (lev_spec p.reverse ((q ++ [c2]).reverse))
                        (lev_spec ((p ++ [c1]).reverse) q.reverse))
                   (lev_spec p.reverse q.reverse) := by
  simp only [List.reverse_append, List.reverse_singleton, List.singleton_append]
  rw [lev_spec]

theorem pref_row_nil_q (ws p : List Char) :
    pref_row [] p ws = List.range' p.length (ws.length + 1) := by
  induction ws generalizing p with
  | nil => simp [pref_row, lev_spec_nil_right]
  | cons c cs ih =>
    rw [pref_row, ih]
    have h1 : lev_spec p.reverse ([] : List Char).reverse = p.length := by
      simp [lev_spec_nil_right]
    have h2 : (p ++ [c]).length = p.length + 1 := by simp
    rw [h1, h2]
    exact (List.range'_succ p.length (cs.length + 1) 1).symm

theorem lev_row_aux_spec (c2 : Char) (q : List Char) :
    ∀ (ws p : List Char),
      lev_row_aux c2 ws (pref_row q p ws) (lev_spec p.reverse ((q ++ [c2]).reverse)) =
        (pref_row (q ++ [c2]) p ws).tail := by
  intro ws
  induction ws with
  | nil => intro p; simp [lev_row_aux, pref_row]
  | cons c1 cs ih =>
    intro p
    rw [pref_row, pref_row_head q (p ++ [c1]) cs]
    rw [lev_row_aux]
    rw [← pref_row_head q (p ++ [c1]) cs]
    rw [← lev_spec_snoc p q c1 c2]
    rw [ih (p ++ [c1])]
    rw [← pref_row_head (q ++ [c2]) (p ++ [c1]) cs]
    rw [pref_row]
    rfl

theorem lev_row_spec (w1 : List Char) (c2 : Char) (q : List Char) :
    lev_row w1 c2 (pref_row q [] w1) (q.length + 1) = pref_row (q ++ [c2]) [] w1 := by
  have h0 : q.length + 1 = lev_spec (([] : List Char)).reverse ((q ++ [c2]).reverse) := by
    simp [lev_spec]
  rw [lev_row, h0, lev_row_aux_spec c2 q w1 []]
  exact (pref_row_head (q ++ [c2]) [] w1).symm

theorem lev_rows_spec (w1 : List Char) :
    ∀ (ws q : List Char),
      lev_rows w1 ws (pref_row q [] w1) q.length = pref_row (q ++ ws) [] w1 := by
  intro ws
  induction ws with
  | nil => intro q; simp [lev_rows]
  | cons c2 cs ih =>
    intro q
    rw [lev_rows, lev_row_spec w1 c2 q]
    have h := ih (q ++ [c2])
    simp only [List.length_append, List.length_singleton, List.append_assoc,
      List.singleton_append] at h
    exact h

theorem getLastD_cons_cons (a b d : Nat) (l : List Nat) :
    (a :: b :: l).getLastD d = (b :: l).getLastD d := by
  simp [List.getLastD_cons]

theorem pref_row_getLastD (q : List Char) :
    ∀ (ws p : List Char),
      (pref_row q p ws).getLastD 0 = lev_spec (p ++ ws).reverse q.reverse := by
  intro ws
  induction ws with
  | nil => intro p; simp [pref_row]
  | cons c cs ih =>
    intro p
    rw [pref_row, pref_row_head q (p ++ [c]) cs, getLastD_cons_cons,
      ← pref_row_head q (p ++ [c]) cs, ih (p ++ [c])]
    simp

theorem levenshtein_eq_lev_spec (a b : String) :
    levenshtein_distance a b = lev_spec a.data.reverse b.data.reverse := by
  rw [levenshtein_distance]
  have h0 : List.range (a.data.length + 1) = pref_row [] [] a.data := by
    rw [pref_row_nil_q]
    simp [List.range_eq_range']
  rw [h0]
  have h1 := lev_rows_spec a.data b.data []
  simp only [List.length_nil, List.nil_append] at h1
  rw [h1, pref_row_getLastD]
  simp

theorem eq_ignore_ascii_case_comm (a b : Char) :
    eq_ignore_ascii_case a b = eq_ignore_ascii_case b a := by
  unfold eq_ignore_ascii_case
  by_cases h : to_ascii_lowercase a = to_ascii_lowercase b
  · rw [h]
  · have h2 : to_ascii_lowercase b ≠ to_ascii_lowercase a := fun e => h e.symm
    rw [beq_false_of_ne h, beq_false_of_ne h2]

theorem lev_spec_comm (xs ys : List Char) : lev_spec xs ys = lev_spec ys xs := by
  have H : ∀ n (xs ys : List Char), xs.length + ys.length ≤ n →
      lev_spec xs ys = lev_spec ys xs := by
    intro n
    induction n with
    | zero =>
      intro xs ys h
      cases xs <;> cases ys <;> simp_all
    | succ n ih =>
      intro xs ys h
      cases xs with
      | nil => simp [lev_spec, lev_spec_nil_right]
      | cons x xs =>
        cases ys with
        | nil => simp [lev_spec, lev_spec_nil_right]
        | cons y ys =>
          simp only [List.length_cons] at h
          simp only [lev_spec]
          rw [eq_ignore_ascii_case_comm y x]
          have h1 := ih xs ys (by omega)
          have h2 := ih xs (y :: ys) (by simp; omega)
          have h3 := ih (x :: xs) ys (by simp; omega)
          by_cases hc : eq_ignore_ascii_case x y = true
          · simp [hc, h1]
          · have hc' : eq_ignore_ascii_case x y = false := by simpa using hc
            rw [if_neg (by simp [hc']), if_neg (by simp [hc']), h1, h2, h3]
            omega
  exact H (xs.length + ys.length) xs ys le_rfl

theorem lev_spec_eq_zero_of_lower (xs : List Char) :
    ∀ ys : List Char, xs.map to_ascii_lowercase = ys.map to_ascii_lowercase →
      lev_spec xs ys = 0 := by
  induction xs with
  | nil =>
    intro ys h
    cases ys with
    | nil => simp [lev_spec]
    | cons y ys => simp at h
  | cons x xs ih =>
    intro ys h
    cases ys with
    | nil => simp at h
    | cons y ys =>
      simp only [List.map_cons, List.cons.injEq] at h
      have hc : eq_ignore_ascii_case x y = true := by
        simp [eq_ignore_ascii_case, h.1]
      simp only [lev_spec, hc, if_pos]
      exact ih ys h.2

/-- C8: the levenshtein distance of src/server/skribbl.rs is symmetric, is
zero on strings that agree up to ASCII letter case, and in particular
`levenshtein_distance "CaT" "cat" = 0`. -/
theorem C8_levenshtein_symmetric_case_insensitive :
    (∀ a b : String, levenshtein_distance a b = levenshtein_distance b a) ∧
    (∀ a b : String, a.data.map to_ascii_lowercase = b.data.map to_ascii_lowercase →
      levenshtein_distance a b = 0) ∧
    levenshtein_distance "CaT" "cat" = 0 := by
  refine ⟨fun a b => ?_, fun a b h => ?_, by decide⟩
  · rw [levenshtein_eq_lev_spec, levenshtein_eq_lev_spec, lev_spec_comm]
  · rw [levenshtein_eq_lev_spec]
    apply lev_spec_eq_zero_of_lower
    rw [List.map_reverse, List.map_reverse, h]

/-- Witness for C8: the case-insensitivity hypothesis is discharged at the
concrete pair ("CaT", "cat"). -/
theorem C8_witness :
    ("CaT".data.map to_ascii_lowercase = "cat".data.map to_ascii_lowercase) ∧
    levenshtein_distance "CaT" "cat" = 0 :=
  ⟨by decide, C8_levenshtein_symmetric_case_insensitive.2.1 "CaT" "cat" (by decide)⟩

/-! ## Data model (src/data.rs, src/server/skribbl.rs) -/

/-- CanvasColor from src/data.rs: a closed enumeration of 16 colors. -/
inductive CanvasColor
  | white | gray | darkGray | black | red | lightRed | green | lightGreen
  | blue | lightBlue | yellow | lightYellow | cyan | lightCyan
  | magenta | lightMagenta
deriving DecidableEq

/-- Coord from src/data.rs: `pub struct Coord(pub u16, pub u16)`; the two
`u16` components are modelled as `Nat` (only comparisons are performed). -/
abbrev Coord := Nat × Nat

/-- Line from src/data.rs: start coord, end coord, color. -/
abbrev Line := Coord × Coord × CanvasColor

/-- GamePlayer from src/server/skribbl.rs; `Username` is modelled by its
display name (the optional server-issued identifier plays no role in the
game state operations). -/
structure GamePlayer where
  username : String
  score : Nat
  has_solved : Bool
deriving DecidableEq

def GamePlayer.new (username : String) : GamePlayer :=
  { username := username, score := 0, has_solved := false }

/-- `calculate_score_increase` from src/server/skribbl.rs:
`50 + (((remaining_time as f64 / ROUND_DURATION as f64) * 100f64) as u32 / 2u32)`.
The source computes the fraction in `f64` and truncates to `u32`; this
embedding uses the exact rational value `remaining_time * 100 / 120`
truncated.  At every remaining time this development evaluates the
function on (in particular 60, where `60/120 * 100 = 50.0` is exact in
`f64`), the two computations agree. -/
def calculate_score_increase (remaining_time : Nat) : Nat :=
  50 + remaining_time * 100 / ROUND_DURATION / 2

/-- `GamePlayer::on_solve`: add the score increase and mark solved. -/
def GamePlayer.on_solve (p : GamePlayer) (remaining_time : Nat) : GamePlayer :=
  { p with score := p.score + calculate_score_increase remaining_time, has_solved := true }

/-- GameOpts from src/server/mod.rs.  The `Either<Vec<String>, Cycle<...>>`
word source is modelled as the underlying word list; `Skribbl::new` always
turns the left variant into the cyclic iterator, and the random pick made
from it is passed to `next_turn` as an explicit parameter. -/
structure GameOpts where
  dimensions : Nat × Nat
  words : List String
  number_of_rounds : Nat
  round_duration : Nat
deriving DecidableEq

/-- SkribblState from src/server/skribbl.rs.  The
`HashMap<usize, char>` of revealed characters and the
`HashMap<PlayerId, GamePlayer>` of players are modelled as association
lists (every insertion site either starts from an empty map with distinct
keys or checks for key absence first). -/
structure SkribblState where
  current_round : Nat
  last_round : Nat
  turn_end_time : Nat
  word_length : Nat
  revealed_characters : List (Nat × Char)
  canvas : List Line
  remaining_players : List Nat
  players : List (Nat × GamePlayer)
  drawing_user : Nat
deriving DecidableEq

/-- `SkribblState::new`: fresh state with every given player at score 0. -/
def SkribblState.new (players : List (Nat × String)) (game_opts : GameOpts) : SkribblState where
  current_round := 0
  last_round := game_opts.number_of_rounds
  turn_end_time := 0
  word_length := 0
  revealed_characters := []
  remaining_players := []
  canvas := []
  players := players.map (fun kv => (kv.1, GamePlayer.new kv.2))
  drawing_user := 0

/-- Update the entry of `id` in a player map, leaving the map unchanged if
the id is absent (the `if let Some(...) = get_mut` pattern of the source;
`do_guess` instead calls `.expect(...)` on the lookup, see there). -/
def update_player (players : List (Nat × GamePlayer)) (id : Nat)
    (f : GamePlayer → GamePlayer) : List (Nat × GamePlayer) :=
  players.map (fun kv => if kv.1 == id then (kv.1, f kv.2) else kv)

/-- `SkribblState::next`: clear the canvas, store the byte length
(`word.len()`) of the new word, restart the turn timer, pre-reveal all
whitespace characters (by character index), refill `remaining_players`
from the player map and bump the round counter if the round is over, pop
the next drawing user (`Vec::pop` takes the last element; its `.unwrap()`
panics when there is no player, modelled by `none`), and reset every
player's `has_solved`.  `now` is the value `get_time_now()` returns. -/
def SkribblState.next (s : SkribblState) (now : Nat) (word : String) : Option SkribblState :=
  let revealed := word.data.enum.filter (fun ic => ic.2.isWhitespace)
  let remaining := if s.remaining_players.isEmpty then s.players.map Prod.fst
                   else s.remaining_players
  let round := if s.remaining_players.isEmpty then s.current_round + 1 else s.current_round
  remaining.getLast?.map (fun d => { s with
      canvas := []
      word_length := word.utf8ByteSize
      turn_end_time := now + ROUND_DURATION
      revealed_characters := revealed
      remaining_players := remaining.dropLast
      current_round := round
      drawing_user := d
      players := s.players.map (fun kv => (kv.1, { kv.2 with has_solved := false })) })

def SkribblState.is_drawing (s : SkribblState) (id : Nat) : Bool :=
  s.drawing_user == id

def SkribblState.has_solved (s : SkribblState) (id : Nat) : Bool :=
  ((s.players.lookup id).map GamePlayer.has_solved) == some true

/-- `SkribblState::remaining_round_time`: `max(0, turn_end_time - now)`;
the truncating `Nat` subtraction is exactly the source's
`max(0, a as i64 - b as i64) as u32`. -/
def SkribblState.remaining_round_time (s : SkribblState) (now : Nat) : Nat :=
  s.turn_end_time - now

/-- `SkribblState::hinted_current_word`: placeholder string with revealed
characters filled in. -/
def SkribblState.hinted_current_word (s : SkribblState) : String :=
  ⟨(List.range s.word_length).map (fun idx => ((s.revealed_characters.lookup idx).getD '?'))⟩

def SkribblState.can_reveal_char (s : SkribblState) : Bool :=
  s.revealed_characters.length < s.word_length / 2

/-- `SkribblState::end_turn`: give the drawing player a flat 50 and then
`on_solve(remaining_time)`.  (No caller of this function is reachable in
the source: its only caller `Skribbl::on_turn_end` is itself never
called.) -/
def SkribblState.end_turn (s : SkribblState) (now : Nat) : SkribblState :=
  let remaining_time := s.remaining_round_time now
  { s with players := (update_player s.players s.drawing_user
      (fun p => GamePlayer.on_solve { p with score := p.score + 50 } remaining_time)) }

/-- Skribbl from src/server/skribbl.rs; the `turn_timer : Option<SpawnHandle>`
is an opaque actix handle and is not part of the embedded state. -/
structure Skribbl where
  current_word : String
  state : SkribblState
  game_opts : GameOpts
deriving DecidableEq

/-- `Skribbl::new`. -/
def Skribbl.new (players : List (Nat × String)) (game_opts : GameOpts) : Skribbl :=
  { current_word := "", state := SkribblState.new players game_opts, game_opts := game_opts }

/-- `Skribbl::next_turn`: `word` is the random pick the source draws from
the cyclic word iterator. -/
def Skribbl.next_turn (g : Skribbl) (now : Nat) (word : String) : Option Skribbl :=
  (g.state.next now word).map (fun st => { g with state := st, current_word := word })

/-- `Skribbl::get_non_guessing_players`: ids of players who have solved or
are drawing. -/
def Skribbl.get_non_guessing_players (g : Skribbl) : List Nat :=
  g.state.players.filterMap
    (fun kv => if kv.2.has_solved || kv.1 == g.state.drawing_user then some kv.1 else none)

/-- Candidate (index, char) pairs of `Skribbl::reveal_random_char`: the
enumerated characters of the current word whose index is not yet a key of
`revealed_characters`. -/
def Skribbl.candidates (g : Skribbl) : List (Nat × Char) :=
  g.current_word.data.enum.filter
    (fun ic => !(g.state.revealed_characters.any (fun kv => kv.1 == ic.1)))

/-- `HashMap::insert` on the association-list model. -/
def hm_insert (m : List (Nat × Char)) (k : Nat) (v : Char) : List (Nat × Char) :=
  if m.any (fun kv => kv.1 == k) then m.map (fun kv => if kv.1 == k then (k, v) else kv)
  else m ++ [(k, v)]

/-- `Skribbl::reveal_random_char`: when the guard allows it, insert a
random not-yet-revealed character.  `choice` stands for the RNG draw; the
source's `.choose(&mut rng).unwrap()` panics when no candidate exists
(the `none` branch; see C10). -/
def Skribbl.reveal_random_char (g : Skribbl) (choice : Nat) : Skribbl :=
  if g.state.can_reveal_char then
    match (Skribbl.candidates g).get? (choice % (Skribbl.candidates g).length) with
    | some ic => { g with state := { g.state with
        revealed_characters := hm_insert g.state.revealed_characters ic.1 ic.2 } }
    | none => g
  else g

def Skribbl.clear_canvas (g : Skribbl) : Skribbl :=
  { g with state := { g.state with canvas := [] } }

def Skribbl.is_drawing (g : Skribbl) (id : Nat) : Bool :=
  g.state.drawing_user == id

/-- `Skribbl::can_guess`: not drawing and not already solved. -/
def Skribbl.can_guess (g : Skribbl) (id : Nat) : Bool :=
  !(g.is_drawing id) && !(((g.state.players.lookup id).map GamePlayer.has_solved).getD false)

/-- `Skribbl::has_any_solved`.  Its doc comment in the source says
"whether any player has solved this round", but the body is
`players.iter().all(|(id, player)| player.has_solved || id == drawing_user)`,
i.e. it is true iff every non-drawing player has solved. -/
def Skribbl.has_any_solved (g : Skribbl) : Bool :=
  g.state.players.all (fun kv => kv.2.has_solved || kv.1 == g.state.drawing_user)

/-- `Skribbl::do_guess`: when the player can guess, return the levenshtein
distance of the guess; on distance zero, shorten the turn when
`has_any_solved()` holds and award the guesser via `on_solve`.  The
source's `.expect("could not find player by id ...")` is modelled by
`update_player`, which is a no-op on an absent id; all uses in this
development apply it to present ids. -/
def Skribbl.do_guess (g : Skribbl) (now : Nat) (id : Nat) (guess : String) :
    Option Nat × Skribbl :=
  if g.can_guess id then
    let remaining_time := g.state.remaining_round_time now
    let d := levenshtein_distance guess g.current_word
    if d = 0 then
      let g1 := if g.has_any_solved then
          { g with state := { g.state with
              turn_end_time := g.state.turn_end_time - remaining_time / 2 } }
        else g
      (some d, { g1 with state := { g1.state with
          players := update_player g1.state.players id (fun p => p.on_solve remaining_time) } })
    else (some d, g)
  else (none, g)

/-- `Skribbl::has_turn_ended`: the body is
`players.values().all(|player| player.has_solved)` — it quantifies over
every player, the drawing user included. -/
def Skribbl.has_turn_ended (g : Skribbl) : Bool :=
  g.state.players.all (fun kv => kv.2.has_solved)

def Skribbl.has_round_ended (g : Skribbl) (now : Nat) : Bool :=
  g.state.remaining_players.isEmpty || decide (g.state.turn_end_time ≤ now)

def Skribbl.is_finished (g : Skribbl) (now : Nat) : Bool :=
  g.has_round_ended now && g.state.current_round == g.game_opts.number_of_rounds

/-- `Skribbl::end_turn`: the source body is empty (`pub fn end_turn(&mut self) {}`). -/
def Skribbl.end_turn (g : Skribbl) : Skribbl := g

/-- `Skribbl::on_turn_end` delegates to `SkribblState::end_turn`; the
source never calls it. -/
def Skribbl.on_turn_end (g : Skribbl) (now : Nat) : Skribbl :=
  { g with state := g.state.end_turn now }

/-- `Skribbl::add_player`: idempotent on the id; a late joiner is pushed
onto `remaining_players`. -/
def Skribbl.add_player (g : Skribbl) (id : Nat) (username : String) : Skribbl :=
  if g.state.players.any (fun kv => kv.1 == id) then g
  else { g with state := { g.state with
      remaining_players := g.state.remaining_players ++ [id]
      players := g.state.players ++ [(id, GamePlayer.new username)] } }

/-- Canvas append performed by the room's `NewLine` handler
(`skribbl.state.canvas.push(line)` in src/server/mod.rs). -/
def Skribbl.push_line (g : Skribbl) (line : Line) : Skribbl :=
  { g with state := { g.state with canvas := g.state.canvas ++ [line] } }

/-! ## Room and server layer (src/server/mod.rs, src/data.rs) -/

/-- Message from src/data.rs: system or user chat message. -/
inductive DataMessage
  | SystemMsg (text : String)
  | UserMsg (username : String) (text : String)
deriving DecidableEq

/-- The subset of ToClientMsg (src/message.rs) produced by the room
handlers embedded below. -/
inductive ToClientMsg
  | NewMessage (msg : DataMessage)
  | NewLine (line : Line)
  | ClearCanvas
  | SkribblRoundStart (word : Option String) (state : SkribblState)
  | SkribblRoundEnd (state : SkribblState)
  | TimeChanged (t : Nat)
deriving DecidableEq

/-- `GameRoom::broadcast`: send a message to every session.  Directed
sends are modelled as the list of (recipient id, message) pairs the
handler emits, in emission order. -/
def broadcast (sessions : List (Nat × String)) (msg : ToClientMsg) :
    List (Nat × ToClientMsg) :=
  sessions.map (fun kv => (kv.1, msg))

/-- `GameRoom::send`: deliver to one session if it exists. -/
def send (sessions : List (Nat × String)) (recipient_id : Nat) (message : ToClientMsg) :
    List (Nat × ToClientMsg) :=
  if (sessions.lookup recipient_id).isSome then [(recipient_id, message)] else []

/-- `GameRoom::send_message`: a private system chat message. -/
def send_message (sessions : List (Nat × String)) (recipient_id : Nat) (message : String) :
    List (Nat × ToClientMsg) :=
  send sessions recipient_id (.NewMessage (.SystemMsg message))

/-- `GameRoom::on_guess` (src/server/mod.rs lines 435-467), for a room in
the `InGame` state: run `do_guess`; on distance 0 broadcast a system
"... guessed it!" and report whether `has_turn_ended()` enqueued
`SkribblEvent::TurnOver` (the returned Bool); on distance 1 send the
sender a private "You're very close!"; on any larger distance broadcast
the chat message to every session; when the sender cannot guess, send the
chat message to the non-guessing players only.  The source's
`self.sessions.get(&sender_id).unwrap()` for the username is modelled by
`getD ""`; every use below has the sender in the session map. -/
def on_guess (sessions : List (Nat × String)) (g : Skribbl) (now sender_id : Nat)
    (text : String) : List (Nat × ToClientMsg) × Skribbl × Bool :=
  let username := (sessions.lookup sender_id).getD ""
  let message_broadcast := ToClientMsg.NewMessage (.UserMsg username text)
  let r := g.do_guess now sender_id text
  match r.1 with
  | some d =>
    if d = 0 then
      (broadcast sessions (.NewMessage (.SystemMsg (username ++ " guessed it!"))),
       r.2, r.2.has_turn_ended)
    else if d = 1 then (send_message sessions sender_id "You're very close!", r.2, false)
    else (broadcast sessions message_broadcast, r.2, false)
  | none => ((r.2.get_non_guessing_players).map (fun i => (i, message_broadcast)), r.2, false)

/-- The `SkribblEvent::TurnOver` arm of `Handler<SkribblEvent> for GameRoom`
(src/server/mod.rs lines 651-674): broadcast the word, cancel the turn
timer (the timer is not part of the embedded state), broadcast
`SkribblRoundEnd` with the current state, and enqueue `GameEnd` when
`is_finished()` (the returned Bool) and `TurnStart` otherwise.  The game
value is returned as the handler leaves it: no `end_turn` of any kind is
invoked. -/
def handle_turn_over (sessions : List (Nat × String)) (g : Skribbl) (now : Nat) :
    List (Nat × ToClientMsg) × Skribbl × Bool :=
  (broadcast sessions (.NewMessage (.SystemMsg ("The word was: \"" ++ g.current_word ++ "\"")))
    ++ broadcast sessions (.SkribblRoundEnd g.state),
   g, g.is_finished now)

/-- The matchmaking-relevant state of GameServer (src/server/mod.rs):
`queue: VecDeque<usize>` and `users: HashMap<usize, ServerUser>` (a user
is represented by its username). -/
structure GameServerState where
  queue : List Nat
  users : List (Nat × String)
deriving DecidableEq

/-- Rust `VecDeque::remove(index)`: removes and returns the element at
POSITION `index`, or returns `None` and leaves the deque unchanged when
the index is out of range. -/
def vecdeque_remove (q : List Nat) (index : Nat) : List Nat :=
  if index < q.length then q.eraseIdx index else q

/-- The `ServerRequest::Disconnect(user_id)` arm of
`Handler<ServerRequest> for GameServer` (src/server/mod.rs lines 331-339):
`if self.queue.contains(&user_id) { self.queue.remove(user_id); }` —
note that `VecDeque::remove` takes an index — then remove the id from the
user map. -/
def handle_disconnect (s : GameServerState) (user_id : Nat) : GameServerState :=
  let queue := if s.queue.contains user_id then vecdeque_remove s.queue user_id else s.queue
  { queue := queue, users := s.users.eraseP (fun kv => kv.1 == user_id) }

/-! ## Coord ordering and `within` (src/data.rs) -/

/-- The derived `Ord` of `Coord(u16, u16)`: lexicographic on the first
component, then the second. -/
def coord_cmp (a b : Coord) : Ordering :=
  if a.1 < b.1 then .lt else if b.1 < a.1 then .gt
  else if a.2 < b.2 then .lt else if b.2 < a.2 then .gt else .eq

/-- The hand-written `PartialOrd for Coord`: `Less` when both components
are strictly smaller, `Equal` when both are equal, `Greater` in every
other case (the source always returns `Some(...)`). -/
def coord_pcmp (a b : Coord) : Ordering :=
  if a.1 < b.1 ∧ a.2 < b.2 then .lt
  else if a.1 = b.1 ∧ a.2 = b.2 then .eq
  else .gt

/-- Rust `Ord::min` (`min_by`: `Less | Equal => v1, Greater => v2`),
instantiated at the derived lexicographic `Ord` of Coord. -/
def ord_min (a b : Coord) : Coord :=
  if coord_cmp a b = .gt then b else a

/-- Rust `Ord::max` (`max_by`: `Less | Equal => v2, Greater => v1`). -/
def ord_max (a b : Coord) : Coord :=
  if coord_cmp a b = .gt then a else b

/-- `Coord::within`: `self > a.min(b) && self < a.max(b)`, where `>` and
`<` come from the hand-written `PartialOrd` and `min`/`max` from the
derived lexicographic `Ord`. -/
def coord_within (p a b : Coord) : Bool :=
  decide (coord_pcmp p (ord_min a b) = .gt) && decide (coord_pcmp p (ord_max a b) = .lt)

/-! ## Claim C7: Coord::within -/

/-- Modelled from the spec: "A coord is inside rectangle (a,b) iff
`min(a.x,b.x) < x < max(a.x,b.x)` and analogously for y (strict)" —
componentwise minima and maxima, all four comparisons strict. -/
def within_spec (p a b : Coord) : Prop :=
  min a.1 b.1 < p.1 ∧ p.1 < max a.1 b.1 ∧ min a.2 b.2 < p.2 ∧ p.2 < max a.2 b.2

theorem coord_pcmp_eq_gt (p q : Coord) :
    coord_pcmp p q = .gt ↔
      ¬(p.1 < q.1 ∧ p.2 < q.2) ∧ ¬(p.1 = q.1 ∧ p.2 = q.2) := by
  unfold coord_pcmp
  split_ifs with h1 h2 <;> simp_all

theorem coord_pcmp_eq_lt (p q : Coord) :
    coord_pcmp p q = .lt ↔ (p.1 < q.1 ∧ p.2 < q.2) := by
  unfold coord_pcmp
  split_ifs with h1 h2 <;> simp_all

/-- C7 counterexample: at `p = (5,0)`, `a = (0,0)`, `b = (10,10)` the
code's `within` returns true (the hand-written `PartialOrd` classifies
`(5,0)` as Greater than `(0,0)` although its y is not strictly greater),
while the spec formula requires `min(a.y,b.y) = 0 < 0`, which is false. -/
theorem C7_counterexample :
    ¬ (coord_within (5, 0) (0, 0) (10, 10) = true ↔ within_spec (5, 0) (0, 0) (10, 10)) := by
  unfold within_spec
  decide

/-- C7 amended: `p.within(a, b)` is true iff, writing `m` and `M` for the
lexicographically smaller and larger of `a` and `b`, `p` is componentwise
strictly below `M`, and `p` is neither componentwise strictly below `m`
nor equal to `m`. -/
theorem C7_within_characterization (p a b : Coord) :
    coord_within p a b = true ↔
      ((¬(p.1 < (ord_min a b).1 ∧ p.2 < (ord_min a b).2) ∧
        ¬(p.1 = (ord_min a b).1 ∧ p.2 = (ord_min a b).2)) ∧
       (p.1 < (ord_max a b).1 ∧ p.2 < (ord_max a b).2)) := by
  simp only [coord_within, Bool.and_eq_true, decide_eq_true_eq,
    coord_pcmp_eq_gt, coord_pcmp_eq_lt]

/-! ## Claim C9: GameServer Disconnect -/

/-- C9: disconnecting user 7 with queue `[5, 7]` passes the membership
check, but `VecDeque::remove(7)` is an index operation; index 7 is out of
range, so the queue is unchanged and id 7 is still in it, while the id is
removed from the user map. -/
theorem C9_disconnect_keeps_id_in_queue :
    (handle_disconnect { queue := [5, 7], users := [(5, "alice"), (7, "bob")] } 7).queue = [5, 7] ∧
    ((handle_disconnect { queue := [5, 7], users := [(5, "alice"), (7, "bob")] } 7).queue.contains 7
      = true) ∧
    (handle_disconnect { queue := [5, 7], users := [(5, "alice"), (7, "bob")] } 7).users
      = [(5, "alice")] := by
  decide

/-! ## Claim C2: has_turn_ended -/

def gC2 : Skribbl :=
  { current_word := "apple"
    game_opts :=
      { dimensions := (900, 60), words := ["apple"], number_of_rounds := 3, round_duration := 120 }
    state :=
      { current_round := 1, last_round := 3, turn_end_time := 1120, word_length := 5
        revealed_characters := [], canvas := [], remaining_players := []
        players := [(0, ⟨"dave", 0, false⟩), (1, ⟨"alice", 50, true⟩)]
        drawing_user := 0 } }

/-- C2 counterexample: in `gC2` the only non-drawing player (alice) has
solved, yet `has_turn_ended()` is false, because its body quantifies over
every player including the drawing user (dave, unsolved). -/
theorem C2_counterexample :
    ¬ (gC2.has_turn_ended = true ↔
        ∀ kv ∈ gC2.state.players, kv.1 ≠ gC2.state.drawing_user → kv.2.has_solved = true) := by
  decide

/-- C2 amended: `has_turn_ended()` returns true iff every player —
including the drawing user — has `has_solved == true`. -/
theorem C2_has_turn_ended_amended (g : Skribbl) :
    g.has_turn_ended = true ↔ ∀ kv ∈ g.state.players, kv.2.has_solved = true := by
  simp [Skribbl.has_turn_ended, List.all_eq_true]

def gC2w : Skribbl :=
  { gC2 with state := { gC2.state with
      players := [(0, ⟨"dave", 0, true⟩), (1, ⟨"alice", 50, true⟩)] } }

/-- Witness for C2: the amended characterization applied at a concrete
all-solved state. -/
theorem C2_witness : gC2w.has_turn_ended = true :=
  (C2_has_turn_ended_amended gC2w).mpr (by decide)

/-! ## Claim C5: TurnOver scoring -/

def sessionsC5 : List (Nat × String) := [(0, "dave"), (1, "alice")]

def gC5 : Skribbl :=
  { current_word := "apple"
    game_opts :=
      { dimensions := (900, 60), words := ["apple"], number_of_rounds := 3, round_duration := 120 }
    state :=
      { current_round := 1, last_round := 3, turn_end_time := 1060, word_length := 5
        revealed_characters := [], canvas := [], remaining_players := [1]
        players := [(0, ⟨"dave", 10, false⟩), (1, ⟨"alice", 20, true⟩)]
        drawing_user := 0 } }

/-- C5: evaluation of the room's TurnOver handling at a concrete in-game
state with 60 seconds remaining.  The handler returns the game completely
unchanged — the drawing player dave keeps score 10, although the claim
requires him to be awarded a flat +50 plus the solve-style time bonus.
(`SkribblState::end_turn` implements such an award but is dead code:
`Skribbl::end_turn` has an empty body and `Skribbl::on_turn_end` has no
caller.) -/
theorem C5_turn_over_no_award :
    (handle_turn_over sessionsC5 gC5 1000).2.1 = gC5 ∧
    ((handle_turn_over sessionsC5 gC5 1000).2.1.state.players.lookup 0
      = some { username := "dave", score := 10, has_solved := false }) ∧
    gC5.state.remaining_round_time 1000 = 60 := by
  decide

/-! ## Claim C1: do_guess -/

def gC1 : Skribbl :=
  { current_word := "apple"
    game_opts :=
      { dimensions := (900, 60), words := ["apple"], number_of_rounds := 3, round_duration := 120 }
    state :=
      { current_round := 1, last_round := 3, turn_end_time := 1060, word_length := 5
        revealed_characters := [], canvas := [], remaining_players := []
        players := [(0, ⟨"dave", 0, false⟩), (1, ⟨"alice", 75, true⟩), (2, ⟨"bob", 0, false⟩)]
        drawing_user := 0 }}

/-- C1: evaluation of `do_guess` at a state where the prior player alice
has already solved this turn, with `round_duration = 120` and 60 seconds
remaining.  The correct guess by bob returns `Some 0`, bob's score rises
by exactly 75 and `has_solved` becomes true — but `turn_end_time` stays
at 1060 instead of dropping to `1060 - 60/2 = 1030`: the half-time
reduction is guarded by `has_any_solved()`, whose body (`all players
solved-or-drawing`) is false while the guesser himself is still unsolved,
although its doc comment says "whether any player has solved". -/
theorem C1_do_guess_no_time_reduction :
    gC1.can_guess 2 = true ∧
    gC1.state.has_solved 1 = true ∧
    levenshtein_distance "apple" "apple" = 0 ∧
    (gC1.do_guess 1000 2 "apple").1 = some (levenshtein_distance "apple" "apple") ∧
    (gC1.do_guess 1000 2 "apple").2.state.turn_end_time = 1060 ∧
    ((gC1.do_guess 1000 2 "apple").2.state.players.lookup 2
      = some { username := "bob", score := 75, has_solved := true }) := by
  decide

/-! ## Claim C6: next_turn resets has_solved and canvas -/

/-- C6: for any state with at least one player, `next_turn` succeeds, and
in the resulting state the canvas is empty and every player's
`has_solved` is false. -/
theorem C6_next_turn_resets (g : Skribbl) (now : Nat) (word : String)
    (h : g.state.players ≠ []) :
    (g.next_turn now word).isSome = true ∧
    ∀ g2, g.next_turn now word = some g2 →
      g2.state.canvas = [] ∧ ∀ kv ∈ g2.state.players, kv.2.has_solved = false := by
  have hne : (if g.state.remaining_players.isEmpty then g.state.players.map Prod.fst
      else g.state.remaining_players) ≠ [] := by
    split
    · exact fun hmap => h (List.map_eq_nil_iff.mp hmap)
    · rename_i hre
      intro hnil
      exact hre (by simp [hnil])
  obtain ⟨d, hd⟩ : ∃ d, (if g.state.remaining_players.isEmpty then g.state.players.map Prod.fst
      else g.state.remaining_players).getLast? = some d :=
    ⟨_, List.getLast?_eq_getLast _ hne⟩
  constructor
  · simp only [Skribbl.next_turn, SkribblState.next]
    rw [hd]
    rfl
  · intro g2 hg2
    simp only [Skribbl.next_turn] at hg2
    obtain ⟨st, hst, rfl⟩ := Option.map_eq_some'.mp hg2
    simp only [SkribblState.next] at hst
    obtain ⟨d2, _, rfl⟩ := Option.map_eq_some'.mp hst
    refine ⟨rfl, ?_⟩
    intro kv hkv
    obtain ⟨kv0, _, rfl⟩ := List.mem_map.mp hkv
    rfl

def gC6 : Skribbl :=
  Skribbl.new [(1, "alice"), (2, "bob")]
    { dimensions := (900, 60), words := ["apple"], number_of_rounds := 3, round_duration := 120 }

/-- Witness for C6: the nonempty-players hypothesis is discharged at a
concrete two-player game. -/
theorem C6_witness :
    gC6.state.players ≠ [] ∧ (gC6.next_turn 1000 "apple").isSome = true :=
  ⟨by decide, (C6_next_turn_resets gC6 1000 "apple" (by decide)).1⟩

/-! ## Claim C4: guess broadcast policy -/

theorem do_guess_of_ne_zero (g : Skribbl) (now id : Nat) (text : String)
    (hc : g.can_guess id = true) (h0 : levenshtein_distance text g.current_word ≠ 0) :
    g.do_guess now id text = (some (levenshtein_distance text g.current_word), g) := by
  simp [Skribbl.do_guess, hc, h0]

/-- C4 amended: when a player who can guess sends a message during
InGame, distance 1 results in exactly one directed send — the private
"You're very close!" to the sender — while distance 2 or more broadcasts
the chat message to every connected session (including the players who
are still guessing); only when the sender cannot guess is delivery
restricted to the non-guessing players. -/
theorem C4_on_guess_amended (sessions : List (Nat × String)) (g : Skribbl)
    (now sender_id : Nat) (text uname : String)
    (hc : g.can_guess sender_id = true)
    (hs : sessions.lookup sender_id = some uname) :
    (levenshtein_distance text g.current_word = 1 →
      on_guess sessions g now sender_id text =
        ([(sender_id, .NewMessage (.SystemMsg "You're very close!"))], g, false)) ∧
    (2 ≤ levenshtein_distance text g.current_word →
      on_guess sessions g now sender_id text =
        (sessions.map (fun kv => (kv.1, .NewMessage (.UserMsg uname text))), g, false)) := by
  constructor
  · intro h1
    have hdo := do_guess_of_ne_zero g now sender_id text hc (by omega)
    rw [h1] at hdo
    simp [on_guess, hdo, send_message, send, hs]
  · intro h2
    have hdo := do_guess_of_ne_zero g now sender_id text hc (by omega)
    have h0 : levenshtein_distance text g.current_word ≠ 0 := by omega
    have h1 : levenshtein_distance text g.current_word ≠ 1 := by omega
    simp [on_guess, hdo, broadcast, h0, h1, hs]

def sessionsC4 : List (Nat × String) := [(0, "dave"), (1, "alice"), (2, "bob")]

def gC4 : Skribbl :=
  { current_word := "apple"
    game_opts :=
      { dimensions := (900, 60), words := ["apple"], number_of_rounds := 3, round_duration := 120 }
    state :=
      { current_round := 1, last_round := 3, turn_end_time := 1060, word_length := 5
        revealed_characters := [], canvas := [], remaining_players := []
        players := [(0, ⟨"dave", 0, false⟩), (1, ⟨"alice", 0, false⟩), (2, ⟨"bob", 0, false⟩)]
        drawing_user := 0 } }

/-- C4 counterexample: bob guesses "zzzzz" (distance 5 from "apple");
alice can still guess, yet she is among the recipients of the chat
broadcast — the claim says a player who can still guess must never
receive a distance-≥ 2 guess. -/
theorem C4_counterexample :
    gC4.can_guess 1 = true ∧
    (1, ToClientMsg.NewMessage (.UserMsg "bob" "zzzzz"))
      ∈ (on_guess sessionsC4 gC4 1000 2 "zzzzz").1 := by
  decide

/-- Witness for C4: the hypotheses and the distance-1 branch discharged
at a concrete state (bob sends "aple", distance 1 from "apple"). -/
theorem C4_witness :
    gC4.can_guess 2 = true ∧ sessionsC4.lookup 2 = some "bob" ∧
    on_guess sessionsC4 gC4 1000 2 "aple" =
      ([(2, .NewMessage (.SystemMsg "You're very close!"))], gC4, false) :=
  ⟨by decide, by decide,
    (C4_on_guess_amended sessionsC4 gC4 1000 2 "aple" "bob" (by decide) (by decide)).1 (by decide)⟩

/-! ## Claim C3: revealed_characters bound -/

/-- Number of whitespace characters of a word. -/
def ws_count (word : String) : Nat :=
  (word.data.filter Char.isWhitespace).length

theorem length_filter_enumFrom (f : Char → Bool) :
    ∀ (l : List Char) (n : Nat),
      ((List.enumFrom n l).filter (fun ic => f ic.2)).length = (l.filter f).length := by
  intro l
  induction l with
  | nil => intro n; rfl
  | cons c cs ih =>
    intro n
    by_cases hf : f c = true
    · simp [List.enumFrom, List.filter_cons, hf, ih]
    · simp [List.enumFrom, List.filter_cons, hf, ih]

theorem nodup_fst_filter_enum (l : List Char) (P : Nat × Char → Bool) :
    ((l.enum.filter P).map Prod.fst).Nodup := by
  have hsub : ((l.enum.filter P).map Prod.fst).Sublist (l.enum.map Prod.fst) :=
    (List.filter_sublist _).map Prod.fst
  have hnd : (l.enum.map Prod.fst).Nodup := by
    rw [List.enum_map_fst]
    exact List.nodup_range _
  exact hnd.sublist hsub

/-- Invariant carried through every reachable game: the revealed map has
pairwise-distinct keys and is bounded by the larger of the whitespace
count of the current word and half the stored word length. -/
abbrev RevealInv (g : Skribbl) : Prop :=
  (g.state.revealed_characters.map Prod.fst).Nodup ∧
  g.state.revealed_characters.length ≤
    max (ws_count g.current_word) (g.state.word_length / 2)

/-- `do_guess` never touches the current word, the revealed map or the
word length. -/
theorem do_guess_state_frame (g : Skribbl) (now id : Nat) (text : String) :
    (g.do_guess now id text).2.current_word = g.current_word ∧
    (g.do_guess now id text).2.state.revealed_characters = g.state.revealed_characters ∧
    (g.do_guess now id text).2.state.word_length = g.state.word_length := by
  unfold Skribbl.do_guess
  by_cases hc : g.can_guess id = true
  · by_cases hd : levenshtein_distance text g.current_word = 0
    · by_cases ha : g.has_any_solved = true <;> simp [hc, hd, ha]
    · simp [hc, hd]
  · simp [hc]

/-- Game states reachable by the operations of the Skribbl engine (plus
the canvas append the room performs on `NewLine`). -/
inductive Reach : Skribbl → Prop where
  | base (players : List (Nat × String)) (opts : GameOpts) : Reach (Skribbl.new players opts)
  | next_turn {g g2 : Skribbl} (now : Nat) (word : String) :
      Reach g → g.next_turn now word = some g2 → Reach g2
  | reveal {g : Skribbl} (choice : Nat) : Reach g → Reach (g.reveal_random_char choice)
  | guess {g : Skribbl} (now id : Nat) (text : String) :
      Reach g → Reach (g.do_guess now id text).2
  | clear {g : Skribbl} : Reach g → Reach g.clear_canvas
  | add {g : Skribbl} (id : Nat) (username : String) : Reach g → Reach (g.add_player id username)
  | line {g : Skribbl} (l : Line) : Reach g → Reach (g.push_line l)
  | state_end_turn {g : Skribbl} (now : Nat) : Reach g → Reach (g.on_turn_end now)
  | skribbl_end_turn {g : Skribbl} : Reach g → Reach g.end_turn

theorem reach_reveal_inv {g : Skribbl} (h : Reach g) : RevealInv g := by
  induction h with
  | base players opts =>
    refine ⟨?_, ?_⟩ <;> simp [Skribbl.new, SkribblState.new]
  | next_turn now word hre heq ih =>
    rw [Skribbl.next_turn] at heq
    obtain ⟨st, hst, rfl⟩ := Option.map_eq_some'.mp heq
    simp only [SkribblState.next] at hst
    obtain ⟨d, hd, rfl⟩ := Option.map_eq_some'.mp hst
    have hl : (word.data.enum.filter (fun ic => ic.2.isWhitespace)).length = ws_count word := by
      have h0 := length_filter_enumFrom Char.isWhitespace word.data 0
      simpa [List.enum] using h0
    refine ⟨nodup_fst_filter_enum _ _, ?_⟩
    exact le_trans (le_of_eq hl) (le_max_left _ _)
  | reveal choice hre ih =>
    rename_i gg
    by_cases hcr : gg.state.can_reveal_char = true
    · simp only [Skribbl.reveal_random_char, hcr, if_true]
      cases hget : (Skribbl.candidates gg).get? (choice % (Skribbl.candidates gg).length) with
      | none => exact ih
      | some ic =>
        have hmem : ic ∈ Skribbl.candidates gg := List.get?_mem hget
        have hnotin : (gg.state.revealed_characters.any (fun kv => kv.1 == ic.1)) = false := by
          have hf := (List.mem_filter.mp hmem).2
          simpa using hf
        have hins : hm_insert gg.state.revealed_characters ic.1 ic.2
            = gg.state.revealed_characters ++ [(ic.1, ic.2)] := by
          rw [hm_insert, if_neg]
          simp [hnotin]
        have hk : ic.1 ∉ gg.state.revealed_characters.map Prod.fst := by
          intro hmem2
          obtain ⟨kv, hkv, hfst⟩ := List.mem_map.mp hmem2
          have hany : gg.state.revealed_characters.any (fun kv => kv.1 == ic.1) = true :=
            List.any_eq_true.mpr ⟨kv, hkv, by simp [hfst]⟩
          simp [hany] at hnotin
        have hlt : gg.state.revealed_characters.length < gg.state.word_length / 2 := by
          simpa [SkribblState.can_reveal_char] using hcr
        refine ⟨?_, ?_⟩
        · simp only [hins, List.map_append]
          simp [List.nodup_append, ih.1, hk]
        · simp only [hins, List.length_append, List.length_singleton]
          have hmax := le_max_right (ws_count gg.current_word) (gg.state.word_length / 2)
          omega
    · simp only [Skribbl.reveal_random_char]
      rw [if_neg hcr]
      exact ih
  | guess now id text hre ih =>
    rename_i gg
    have hf := do_guess_state_frame gg now id text
    refine ⟨?_, ?_⟩
    · rw [hf.2.1]; exact ih.1
    · rw [hf.2.1, hf.1, hf.2.2]; exact ih.2
  | clear hre ih => exact ih
  | add id username hre ih =>
    unfold Skribbl.add_player
    split
    · exact ih
    · exact ih
  | line l hre ih => exact ih
  | state_end_turn now hre ih => exact ih
  | skribbl_end_turn hre ih => exact ih

def gC3base : Skribbl :=
  Skribbl.new [(1, "alice"), (2, "bob")]
    { dimensions := (900, 60), words := ["a   b"], number_of_rounds := 3, round_duration := 120 }

/-- C3 counterexample: one `next_turn` from a fresh two-player game with
the word "a   b" (1 letter, 3 spaces, 1 letter) pre-reveals all three
whitespace indices, so the reachable successor state has 3 revealed
entries while `word_length / 2 = 2`: the claimed bound
`|revealed_characters| ≤ word_length / 2` is violated. -/
theorem C3_counterexample :
    ((gC3base.next_turn 1000 "a   b").map
      (fun g2 => (g2.state.revealed_characters.length, g2.state.word_length / 2)))
      = some (3, 2) ∧
    ((gC3base.next_turn 1000 "a   b").map
      (fun g2 => decide (g2.state.revealed_characters.length ≤ g2.state.word_length / 2)))
      = some false := by
  decide

/-- C3 amended: in every reachable game state the number of revealed
entries is at most the larger of the whitespace count of the current word
and `word_length / 2` (whitespace is pre-revealed unconditionally, which
is the only way past `word_length / 2`); and `reveal_random_char` is a
no-op whenever the `|revealed| < word_length / 2` guard fails. -/
theorem C3_revealed_bound :
    (∀ g : Skribbl, Reach g →
      g.state.revealed_characters.length ≤
        max (ws_count g.current_word) (g.state.word_length / 2)) ∧
    (∀ (g : Skribbl) (choice : Nat), g.state.can_reveal_char = false →
      g.reveal_random_char choice = g) := by
  constructor
  · intro g h
    exact (reach_reveal_inv h).2
  · intro g choice h
    simp only [Skribbl.reveal_random_char]
    rw [if_neg]
    simp [h]

/-- Witness for C3: the Reach hypothesis is discharged at a concrete
fresh game, the guard hypothesis at the same state (whose word length is
0, so the guard fails). -/
theorem C3_witness :
    gC3base.state.revealed_characters.length ≤
      max (ws_count gC3base.current_word) (gC3base.state.word_length / 2) ∧
    gC3base.reveal_random_char 0 = gC3base :=
  ⟨C3_revealed_bound.1 gC3base (Reach.base _ _), C3_revealed_bound.2 gC3base 0 (by decide)⟩

/-! ## Claim C10: reveal_random_char cannot panic on ASCII-sized words -/

theorem length_filter_split (P : Nat × Char → Bool) :
    ∀ l : List (Nat × Char),
      (l.filter P).length + (l.filter (fun x => !P x)).length = l.length := by
  intro l
  induction l with
  | nil => rfl
  | cons x xs ih =>
    by_cases h : P x = true
    · simp only [List.filter_cons, h]
      simp
      omega
    · have h2 : P x = false := by simpa using h
      simp only [List.filter_cons, h2]
      simp
      omega

theorem length_le_of_nodup_subset (l1 l2 : List Nat) (h1 : l1.Nodup)
    (h2 : ∀ x ∈ l1, x ∈ l2) : l1.length ≤ l2.length := by
  calc l1.length = l1.toFinset.card := (List.toFinset_card_of_nodup h1).symm
    _ ≤ l2.toFinset.card := Finset.card_le_card (fun x hx => by
        rw [List.mem_toFinset] at hx ⊢
        exact h2 x hx)
    _ ≤ l2.length := l2.toFinset_card_le

/-- C10: provided the current word's byte length equals its character
count (e.g. an ASCII word) and `word_length` was set from that word, the
reveal guard `|revealed| < word_length / 2` guarantees an unrevealed
character index exists, so the random choice of `reveal_random_char`
(the source's `.choose(&mut rng).unwrap()`) always finds a candidate and
cannot panic. -/
theorem C10_reveal_never_panics (g : Skribbl)
    (hbytes : g.current_word.utf8ByteSize = g.current_word.data.length)
    (hwl : g.state.word_length = g.current_word.utf8ByteSize)
    (hguard : g.state.can_reveal_char = true) :
    ∀ choice : Nat,
      ((Skribbl.candidates g).get? (choice % (Skribbl.candidates g).length)).isSome = true := by
  intro choice
  have hlt : g.state.revealed_characters.length < g.current_word.data.length / 2 := by
    have h0 : g.state.revealed_characters.length < g.state.word_length / 2 := by
      simpa [SkribblState.can_reveal_char] using hguard
    rw [hwl, hbytes] at h0
    exact h0
  have hsplit := length_filter_split
    (fun ic => !(g.state.revealed_characters.any (fun kv => kv.1 == ic.1)))
    g.current_word.data.enum
  have hinmap : ((g.current_word.data.enum.filter
      (fun x => !(!(g.state.revealed_characters.any (fun kv => kv.1 == x.1))))).length)
      ≤ g.state.revealed_characters.length := by
    have hnd := nodup_fst_filter_enum g.current_word.data
      (fun x => !(!(g.state.revealed_characters.any (fun kv => kv.1 == x.1))))
    have hsubset : ∀ k ∈ (g.current_word.data.enum.filter
        (fun x => !(!(g.state.revealed_characters.any (fun kv => kv.1 == x.1))))).map Prod.fst,
        k ∈ g.state.revealed_characters.map Prod.fst := by
      intro k hk
      obtain ⟨ic, hic, rfl⟩ := List.mem_map.mp hk
      have hcond := (List.mem_filter.mp hic).2
      have hany : g.state.revealed_characters.any (fun kv => kv.1 == ic.1) = true := by
        simpa using hcond
      obtain ⟨kv, hkv, hbeq⟩ := List.any_eq_true.mp hany
      have hkeq : kv.1 = ic.1 := by simpa using hbeq
      exact hkeq ▸ List.mem_map.mpr ⟨kv, hkv, rfl⟩
    have hle := length_le_of_nodup_subset _ _ hnd hsubset
    simpa using hle
  have henum : g.current_word.data.enum.length = g.current_word.data.length := by
    simp [List.enum_length]
  have hcand : 0 < (Skribbl.candidates g).length := by
    have hcdef : Skribbl.candidates g = g.current_word.data.enum.filter
        (fun ic => !(g.state.revealed_characters.any (fun kv => kv.1 == ic.1))) := rfl
    rw [hcdef]
    omega
  have hmod : choice % (Skribbl.candidates g).length < (Skribbl.candidates g).length :=
    Nat.mod_lt _ hcand
  rw [List.get?_eq_get hmod]
  rfl

def gC10 : Skribbl :=
  { current_word := "abcd"
    game_opts :=
      { dimensions := (900, 60), words := ["abcd"], number_of_rounds := 3, round_duration := 120 }
    state :=
      { current_round := 1, last_round := 3, turn_end_time := 1120, word_length := 4
        revealed_characters := [], canvas := [], remaining_players := []
        players := [(0, ⟨"dave", 0, false⟩), (1, ⟨"alice", 0, false⟩)]
        drawing_user := 0 } }

/-- Witness for C10: all three hypotheses are discharged at a concrete
ASCII game state, and the candidate lookup succeeds for the draw 7. -/
theorem C10_witness :
    (gC10.current_word.utf8ByteSize = gC10.current_word.data.length ∧
     gC10.state.word_length = gC10.current_word.utf8ByteSize ∧
     gC10.state.can_reveal_char = true) ∧
    ((Skribbl.candidates gC10).get? (7 % (Skribbl.candidates gC10).length)).isSome = true :=
  ⟨⟨by decide, by decide, by decide⟩,
    C10_reveal_never_panics gC10 (by decide) (by decide) (by decide) 7⟩
